import Mathlib

/-!
Verification of `Neil/llm_labeling_demo.py` (LLM labeling demo).

The script labels movie reviews via an external model API in two passes
(classify, then rewrite the reasoning under a word limit with a local hard
guard), aggregates output records and an accuracy metric, and can generate a
seeded synthetic fixture dataset.

The external model boundary (OpenAI chat completion) and the Python `random`
module are external collaborators: they are modelled as explicit function
parameters (a "stub model" / abstract PRNG), so theorems quantify over all
possible behaviours of those collaborators.  Strings are modelled over their
character lists; character classes (`\w` of the regex, `str.split`
whitespace, `str.strip`) are modelled at ASCII granularity, which covers the
entire data of the program.
-/

set_option maxRecDepth 10000

namespace LlmDemo

/-- A regex word character `\w`: alphanumeric or underscore (ASCII). -/
def isWordChar (c : Char) : Bool := c.isAlphanum || c == '_'

/-- A Python `str.split()` / `str.strip()` whitespace character (ASCII). -/
def isPySpace (c : Char) : Bool :=
  c == ' ' || c == '\t' || c == '\n' || c == '\r' || c == '\x0b' || c == '\x0c'

/-- Auxiliary word counter: counts starts of maximal runs of word characters;
`inWord` records whether the previous character was a word character. -/
def wcAux : Bool → List Char → Nat
  | _, [] => 0
  | inWord, c :: cs =>
    if isWordChar c then (if inWord then 0 else 1) + wcAux true cs
    else wcAux false cs

/-- `word_count` of `llm_labeling_demo.py` line 85-86:
`len(re.findall(r"\b\w+\b", s))`, i.e. the number of non-overlapping matches
of one-or-more word characters bounded by word boundaries — equivalently the
number of maximal runs of word characters in `s`. -/
def word_count (s : String) : Nat := wcAux false s.data

/-- Python `s.split()` on a character list: maximal runs of non-whitespace
characters, with empty pieces discarded. -/
def pySplitL : List Char → List (List Char)
  | [] => []
  | [c] => if isPySpace c then [] else [[c]]
  | c :: d :: cs =>
    if isPySpace c then pySplitL (d :: cs)
    else if isPySpace d then [c] :: pySplitL cs
    else
      match pySplitL (d :: cs) with
      | [] => [[c]]
      | w :: ws => (c :: w) :: ws

/-- Python `s.split()`. -/
def pySplit (s : String) : List String := (pySplitL s.data).map String.mk

/-- `" ".join(tokens)` on character lists. -/
def joinSpaceL : List (List Char) → List Char
  | [] => []
  | [t] => t
  | t :: t2 :: ts => t ++ ' ' :: joinSpaceL (t2 :: ts)

/-- `" ".join(s.split()[:n])` — the deterministic truncation of the hard
guard (`llm_labeling_demo.py` line 126). -/
def truncateWords (s : String) (n : Nat) : String :=
  String.mk (joinSpaceL ((pySplitL s.data).take n))

/-- Python `str.strip()` (ASCII whitespace). -/
def pyStrip (s : String) : String :=
  String.mk (((s.data.dropWhile isPySpace).reverse.dropWhile isPySpace).reverse)

/-- The structured output schema `PoliticalLabel` (lines 69-71). -/
structure PoliticalLabel where
  is_political : Int
  reasoning : String
  deriving DecidableEq, Repr

/-- A chat-completion message as consumed by the script: an optional refusal
string and the parsed structured payload. -/
structure ModelMsg where
  refusal : Option String
  parsed : PoliticalLabel
  deriving Repr

/-- Python truthiness of `getattr(msg, "refusal", None)`: `None` and the
empty string are falsy. -/
def refusalTruthy : Option String → Bool
  | none => false
  | some r => r ≠ ""

/-- The fixed rubric string `RUBRIC` (lines 27-31). -/
def RUBRIC : String :=
  "Label is_political=1 ONLY if the review explicitly uses political / ideology / culture-war framing " ++
  "(e.g., woke, SJW, propaganda, left/right, party politics, identity politics, agenda). " ++
  "If it's just 'preachy' or 'message' without explicit politics, label 0."

/-- `build_prompt` (lines 75-82). -/
def build_prompt (review_text : String) : String :=
  "Rubric: " ++ RUBRIC ++ "\n\n" ++
  "Task: Read the review and output JSON with fields \x7bis_political, reasoning\x7d.\n" ++
  "- is_political must be 0 or 1\n" ++
  "- reasoning should be <= 50 words (soft)\n\n" ++
  "Review: " ++ review_text

/-- `label_one` (lines 89-104): the classification call.  The external model
is a parameter mapping the user prompt to the message of the completion; a
truthy `refusal` raises (modelled as `.error` carrying the refusal text),
otherwise the parsed structured payload is returned. -/
def label_one (model : String → ModelMsg) (review_text : String) :
    Except String PoliticalLabel :=
  let msg := model (build_prompt review_text)
  if refusalTruthy msg.refusal then .error (msg.refusal.getD "")
  else .ok msg.parsed

/-- The hard guard of `enforce_reasoning_limit` (lines 124-127): if the regex
word count of the parsed reasoning exceeds `max_words`, replace the reasoning
by the first `max_words` whitespace tokens joined by single spaces. -/
def hardGuard (out : PoliticalLabel) (max_words : Nat) : PoliticalLabel :=
  if word_count out.reasoning > max_words then
    { out with reasoning := truncateWords out.reasoning max_words }
  else out

/-- `enforce_reasoning_limit` (lines 107-127): the rewrite call.  The model
parameter maps the prior result (sent as assistant context) to the second
completion's message; refusal raises, otherwise the parsed payload passes
through the hard guard. -/
def enforce_reasoning_limit (model : PoliticalLabel → ModelMsg)
    (result : PoliticalLabel) (max_words : Nat) : Except String PoliticalLabel :=
  let msg := model result
  if refusalTruthy msg.refusal then .error (msg.refusal.getD "")
  else .ok (hardGuard msg.parsed max_words)

/-- An input row of `fake_movie_reviews.csv` (a Review Record). -/
structure ReviewRecord where
  review_id : Nat
  review_text : String
  true_is_political : Int
  deriving DecidableEq, Repr

/-- One output row assembled by `main` (lines 148-155). -/
structure OutputRecord where
  review_id : Nat
  review_text : String
  true_is_political : Int
  pred_is_political : Int
  reasoning : String
  reasoning_words : Nat
  deriving DecidableEq, Repr

/-- The output row built from a review record and its enforced label
(lines 148-155); `reasoning_words` is recomputed with `word_count`. -/
def mkOutput (r : ReviewRecord) (out : PoliticalLabel) : OutputRecord :=
  { review_id := r.review_id
    review_text := r.review_text
    true_is_political := r.true_is_political
    pred_is_political := out.is_political
    reasoning := out.reasoning
    reasoning_words := word_count out.reasoning }

/-- The labeling loop of `main` (lines 144-155): per record, in input order,
`label_one` then `enforce_reasoning_limit`; any raised error aborts the whole
batch and no output rows are produced. -/
def runBatch (labelModel : String → ModelMsg) (enfModel : PoliticalLabel → ModelMsg)
    (max_words : Nat) : List ReviewRecord → Except String (List OutputRecord)
  | [] => .ok []
  | r :: rs =>
    match label_one labelModel r.review_text with
    | .error e => .error e
    | .ok out1 =>
      match enforce_reasoning_limit enfModel out1 max_words with
      | .error e => .error e
      | .ok out2 =>
        match runBatch labelModel enfModel max_words rs with
        | .error e => .error e
        | .ok rest => .ok (mkOutput r out2 :: rest)

/-- The accuracy metric of `main` (line 162):
`(out_df.true_is_political == out_df.pred_is_political).mean()`.  For a
non-empty batch this is the fraction of records whose labels agree.  For an
empty batch this raises: `pd.DataFrame([])` at line 157 has no columns, so
the attribute access `out_df.true_is_political` at line 162 fails with
`AttributeError` before any mean is computed — modelled as the error case. -/
def accuracy (rows : List OutputRecord) : Except String ℚ :=
  if rows.length = 0 then
    .error "AttributeError: DataFrame object has no attribute true_is_political"
  else
    .ok ((rows.countP (fun o => o.true_is_political == o.pred_is_political) : ℚ) / rows.length)

/-- The Python global `random` module, an external collaborator, modelled as
an abstract deterministic pseudo-random source over a state of type `Nat`:
`seedFn` is `random.seed` (replacing the global state with a function of the
seed alone), `next` advances the state by one draw, `randQ` reads the
`random.random()` variate of the current state, and `randIdx` reads the index
draw that `random.choice` uses. -/
structure PRNG where
  seedFn : Nat → Nat
  next : Nat → Nat
  randQ : Nat → ℚ
  randIdx : Nat → Nat

/-- The political template pool (lines 38-45). -/
def political : List String :=
  [ "This is woke propaganda dressed as a movie.",
    "Another SJW agenda push. Hard pass.",
    "Left/right culture-war nonsense ruined the plot.",
    "Pure identity politics. Not cinema.",
    "Party politics in superhero form. Obvious agenda.",
    "This felt like partisan messaging, not storytelling." ]

/-- The non-political template pool (lines 46-53). -/
def nonpolitical : List String :=
  [ "Bad pacing and weak dialogue.",
    "The acting was fine but the plot was messy.",
    "Great visuals, mediocre script.",
    "Too long; the third act dragged.",
    "Sound mixing was awful in my theater.",
    "Fun movie, not perfect, but enjoyable." ]

/-- The three filler suffixes (line 63). -/
def fillers : List String := ["Seriously.", "LOL.", "Just my opinion."]

/-- `random.choice(pool)`: one index draw from the current state, reduced
modulo the pool size, then the state advances. -/
def pyChoice (p : PRNG) (pool : List String) (g : Nat) : String × Nat :=
  (pool.getD (p.randIdx g % pool.length) "", p.next g)

/-- One iteration of the generation loop (lines 55-64): draw a uniform
variate, pick the political pool when it is below 0.35 (with label 1) and the
non-political pool otherwise (label 0), then with probability 0.25 append one
of the three fillers; the row text is stripped. -/
def genRow (p : PRNG) (i : Nat) (g : Nat) : ReviewRecord × Nat :=
  let u1 := p.randQ g
  let g1 := p.next g
  let pick : List String × Int := if u1 < 7/20 then (political, 1) else (nonpolitical, 0)
  let (txt0, g2) := pyChoice p pick.1 g1
  let u2 := p.randQ g2
  let g3 := p.next g2
  if u2 < 1/4 then
    let (f, g4) := pyChoice p fillers g3
    ({ review_id := i, review_text := pyStrip (txt0 ++ " " ++ f),
       true_is_political := pick.2 }, g4)
  else
    ({ review_id := i, review_text := pyStrip txt0, true_is_political := pick.2 }, g3)

/-- The loop `for i in range(1, n + 1)` of lines 55-64, threading the PRNG
state; `i` is the next id and the second argument counts remaining rows. -/
def genRows (p : PRNG) : Nat → Nat → Nat → List ReviewRecord × Nat
  | g, _, 0 => ([], g)
  | g, i, k + 1 =>
    let (row, g1) := genRow p i g
    let (rest, g2) := genRows p g1 (i + 1) k
    (row :: rest, g2)

/-- `maybe_make_fake_dataset` (lines 35-65) on the generation path (target
file absent): seed the global PRNG state — discarding the prior global state
`g0` — then emit `n` rows with ids `1..n`.  Returns the rows and the final
global state. -/
def maybe_make_fake_dataset (p : PRNG) (n seed : Nat) (_g0 : Nat) :
    List ReviewRecord × Nat :=
  genRows p (p.seedFn seed) 1 n

/-- The operational behaviour of `re.findall(r"\b\w+\b", s)`: scan left to
right, skip non-word characters, and collect each maximal run of word
characters as one match.  Defined independently of `wcAux` so that
`word_count` can be proved to equal the number of matches. -/
def reFindallWords : List Char → List (List Char)
  | [] => []
  | [c] => if isWordChar c then [[c]] else []
  | c :: d :: cs =>
    if !isWordChar c then reFindallWords (d :: cs)
    else if !isWordChar d then [c] :: reFindallWords cs
    else
      match reFindallWords (d :: cs) with
      | [] => [[c]]
      | w :: ws => (c :: w) :: ws

/-- A reasoning string of 51 whitespace tokens, each the three characters
`a-b` (two regex words per token). -/
def exBad : String := String.mk (joinSpaceL (List.replicate 51 ['a', '-', 'b']))

/-- A concrete review record for counterexamples and witnesses. -/
def exRecord : ReviewRecord :=
  { review_id := 1, review_text := "Bad pacing and weak dialogue.", true_is_political := 0 }

/-- A non-refusing completion message wrapping a payload. -/
def okMsg (pl : PoliticalLabel) : ModelMsg := { refusal := none, parsed := pl }

/-- A concrete three-record batch with `true = [1,0,1]` and `pred = [1,0,0]`. -/
def exBatch : List OutputRecord :=
  [ { review_id := 1, review_text := "a", true_is_political := 1, pred_is_political := 1,
      reasoning := "r", reasoning_words := 1 },
    { review_id := 2, review_text := "b", true_is_political := 0, pred_is_political := 0,
      reasoning := "r", reasoning_words := 1 },
    { review_id := 3, review_text := "c", true_is_political := 1, pred_is_political := 0,
      reasoning := "r", reasoning_words := 1 } ]

/-- A reasoning string of 80 whitespace tokens, each the single word
character `w` (the spec's truncation scenario). -/
def ex80 : String := String.mk (joinSpaceL (List.replicate 80 ['w']))

/-- A second concrete review record. -/
def exRecord2 : ReviewRecord :=
  { review_id := 2, review_text := "Great visuals, mediocre script.", true_is_political := 0 }

/-- Whether a batch run succeeded (an output table exists). -/
def isOkB : Except String (List OutputRecord) → Bool
  | .ok _ => true
  | .error _ => false

/-! ### Lemmas about word counting, splitting and joining -/

/-- A whitespace-split token: nonempty and free of whitespace characters. -/
def isToken (t : List Char) : Prop := t ≠ [] ∧ ∀ c ∈ t, isPySpace c = false

theorem wcAux_append_space (xs : List Char) :
    ∀ (b : Bool) (ys : List Char),
      wcAux b (xs ++ ' ' :: ys) = wcAux b xs + wcAux false ys := by
  induction xs with
  | nil =>
    intro b ys
    simp [wcAux, isWordChar]
  | cons c cs ih =>
    intro b ys
    by_cases h : isWordChar c = true
    · simp [wcAux, h, ih]
      omega
    · simp [wcAux, h, ih]

theorem wordCount_joinSpaceL (ts : List (List Char)) :
    wcAux false (joinSpaceL ts) = (ts.map (wcAux false)).sum := by
  induction ts with
  | nil => simp [joinSpaceL, wcAux]
  | cons t ts ih =>
    cases ts with
    | nil => simp [joinSpaceL]
    | cons t2 ts2 =>
      simp only [joinSpaceL, List.map_cons, List.sum_cons]
      rw [wcAux_append_space, ih]
      simp [List.map_cons, List.sum_cons]

theorem pySplitL_tokens : ∀ (l : List Char), ∀ t ∈ pySplitL l, isToken t := by
  intro l
  induction l using pySplitL.induct with
  | case1 => simp [pySplitL]
  | case2 c h =>
    simp only [pySplitL, if_pos h]
    intro t ht
    exact absurd ht (List.not_mem_nil t)
  | case3 c h =>
    simp only [pySplitL, if_neg h]
    intro t ht
    rw [List.mem_singleton] at ht
    subst ht
    refine ⟨by simp, ?_⟩
    intro x hx
    rw [List.mem_singleton] at hx
    subst hx
    simpa using h
  | case4 c d cs h ih =>
    simpa only [pySplitL, if_pos h] using ih
  | case5 c d cs hc hd ih =>
    simp only [pySplitL, if_neg hc, if_pos hd]
    intro t ht
    rw [List.mem_cons] at ht
    rcases ht with rfl | ht
    · exact ⟨by simp, by intro x hx; rw [List.mem_singleton] at hx; subst hx; simpa using hc⟩
    · exact ih t ht
  | case6 c d cs hc hd hnil ih =>
    simp only [pySplitL, if_neg hc, if_neg hd, hnil]
    intro t ht
    rw [List.mem_singleton] at ht
    subst ht
    exact ⟨by simp, by intro x hx; rw [List.mem_singleton] at hx; subst hx; simpa using hc⟩
  | case7 c d cs hc hd w ws hcons ih =>
    simp only [pySplitL, if_neg hc, if_neg hd, hcons]
    intro t ht
    rw [List.mem_cons] at ht
    rcases ht with rfl | ht
    · have hw : isToken w := ih w (by rw [hcons]; exact List.mem_cons_self w ws)
      refine ⟨by simp, ?_⟩
      intro x hx
      rw [List.mem_cons] at hx
      rcases hx with rfl | hx
      · simpa using hc
      · exact hw.2 x hx
    · exact ih t (by rw [hcons]; exact List.mem_cons_of_mem w ht)

theorem pySplitL_token (w : List Char) (hw : isToken w) : pySplitL w = [w] := by
  induction w with
  | nil => exact absurd rfl hw.1
  | cons c cs ih =>
    have hc : isPySpace c = false := hw.2 c (List.mem_cons_self c cs)
    cases cs with
    | nil => simp [pySplitL, hc]
    | cons d ds =>
      have hd : isPySpace d = false := hw.2 d (by simp)
      have ihd := ih ⟨by simp, fun x hx => hw.2 x (List.mem_cons_of_mem c hx)⟩
      simp [pySplitL, hc, hd, ihd]

theorem pySplitL_token_append (w : List Char) (hw : isToken w) (rest : List Char) :
    pySplitL (w ++ ' ' :: rest) = w :: pySplitL rest := by
  induction w with
  | nil => exact absurd rfl hw.1
  | cons c cs ih =>
    have hc : isPySpace c = false := hw.2 c (List.mem_cons_self c cs)
    cases cs with
    | nil =>
      have : isPySpace ' ' = true := by decide
      simp [pySplitL, hc, this]
    | cons d ds =>
      have hd : isPySpace d = false := hw.2 d (by simp)
      have ihd := ih ⟨by simp, fun x hx => hw.2 x (List.mem_cons_of_mem c hx)⟩
      simp only [List.cons_append] at ihd ⊢
      simp [pySplitL, hc, hd, ihd]

theorem pySplitL_joinSpaceL (ts : List (List Char)) (h : ∀ t ∈ ts, isToken t) :
    pySplitL (joinSpaceL ts) = ts := by
  induction ts with
  | nil => simp [joinSpaceL, pySplitL]
  | cons t ts ih =>
    cases ts with
    | nil =>
      simp only [joinSpaceL]
      exact pySplitL_token t (h t (List.mem_singleton_self t))
    | cons t2 ts2 =>
      simp only [joinSpaceL]
      rw [pySplitL_token_append t (h t (List.mem_cons_self t _))]
      rw [ih (fun u hu => h u (List.mem_cons_of_mem t hu))]

theorem sum_le_length_of_le_one {l : List Nat} (h : ∀ x ∈ l, x ≤ 1) :
    l.sum ≤ l.length := by
  induction l with
  | nil => simp
  | cons x xs ih =>
    simp only [List.sum_cons, List.length_cons]
    have hx := h x (List.mem_cons_self x xs)
    have := ih (fun y hy => h y (List.mem_cons_of_mem x hy))
    omega

theorem truncateWords_data (s : String) (n : Nat) :
    (truncateWords s n).data = joinSpaceL ((pySplitL s.data).take n) := rfl

theorem truncateWords_idem (s : String) (n : Nat) :
    truncateWords (truncateWords s n) n = truncateWords s n := by
  have htok : ∀ t ∈ (pySplitL s.data).take n, isToken t :=
    fun t ht => pySplitL_tokens s.data t (List.take_subset n _ ht)
  show String.mk _ = String.mk _
  rw [truncateWords_data, pySplitL_joinSpaceL _ htok, List.take_take, Nat.min_self]

theorem word_count_truncate_le (s : String) (n : Nat)
    (h : ∀ t ∈ pySplitL s.data, wcAux false t ≤ 1) :
    word_count (truncateWords s n) ≤ n := by
  show wcAux false (truncateWords s n).data ≤ n
  rw [truncateWords_data, wordCount_joinSpaceL]
  calc (((pySplitL s.data).take n).map (wcAux false)).sum
      ≤ (((pySplitL s.data).take n).map (wcAux false)).length := by
        refine sum_le_length_of_le_one ?_
        intro x hx
        rw [List.mem_map] at hx
        obtain ⟨t, ht, rfl⟩ := hx
        exact h t (List.take_subset n _ ht)
    _ ≤ n := by
        rw [List.length_map]
        exact List.length_take_le n _

theorem hardGuard_is_political (out : PoliticalLabel) (m : Nat) :
    (hardGuard out m).is_political = out.is_political := by
  unfold hardGuard
  split <;> rfl

theorem hardGuard_word_count_le (out : PoliticalLabel) (m : Nat)
    (h : ∀ t ∈ pySplitL out.reasoning.data, wcAux false t ≤ 1) :
    word_count (hardGuard out m).reasoning ≤ m := by
  unfold hardGuard
  split
  · exact word_count_truncate_le _ _ h
  · omega

theorem enforce_ok_eq (enfM : PoliticalLabel → ModelMsg) (res : PoliticalLabel)
    (m : Nat) (pl : PoliticalLabel)
    (h : enforce_reasoning_limit enfM res m = .ok pl) :
    pl = hardGuard (enfM res).parsed m := by
  by_cases hr : refusalTruthy (enfM res).refusal = true
  · simp [enforce_reasoning_limit, hr] at h
  · simp [enforce_reasoning_limit, hr] at h
    exact h.symm

theorem word_count_eq_reFindall (l : List Char) :
    wcAux false l = (reFindallWords l).length := by
  induction l using reFindallWords.induct with
  | case1 => rfl
  | case2 c h => simp [reFindallWords, wcAux, h]
  | case3 c h =>
    have hc : isWordChar c = false := by simpa using h
    simp [reFindallWords, wcAux, hc]
  | case4 c d cs h ih =>
    have hc : isWordChar c = false := by simpa using h
    have h1 : reFindallWords (c :: d :: cs) = reFindallWords (d :: cs) := by
      simp [reFindallWords, hc]
    have h2 : wcAux false (c :: d :: cs) = wcAux false (d :: cs) := by
      simp [wcAux, hc]
    rw [h1, h2, ih]
  | case5 c d cs hc hd ih =>
    have hc2 : isWordChar c = true := by simpa using hc
    have hd2 : isWordChar d = false := by simpa using hd
    simp [reFindallWords, wcAux, hc2, hd2, ih]
    omega
  | case6 c d cs hc hd hnil ih =>
    have hd2 : isWordChar d = true := by simpa using hd
    rw [hnil] at ih
    simp only [List.length_nil] at ih
    rw [show wcAux false (d :: cs) = 1 + wcAux true cs from by simp [wcAux, hd2]] at ih
    omega
  | case7 c d cs hc hd w ws hcons ih =>
    have hc2 : isWordChar c = true := by simpa using hc
    have hd2 : isWordChar d = true := by simpa using hd
    have hstep : reFindallWords (c :: d :: cs) = (c :: w) :: ws := by
      simp [reFindallWords, hc2, hd2, hcons]
    rw [hstep]
    have heq : wcAux false (c :: d :: cs) = wcAux false (d :: cs) := by
      simp [wcAux, hc2, hd2]
    rw [heq, ih, hcons]
    simp

/-! ### Lemmas about the labeling calls and the batch loop -/

theorem label_one_refuses (labelM : String → ModelMsg) (rt e : String)
    (h : (labelM (build_prompt rt)).refusal = some e) (hne : e ≠ "") :
    label_one labelM rt = .error e := by
  simp [label_one, refusalTruthy, h, hne]

theorem enforce_refuses (enfM : PoliticalLabel → ModelMsg) (res : PoliticalLabel)
    (m : Nat) (e : String) (h : (enfM res).refusal = some e) (hne : e ≠ "") :
    enforce_reasoning_limit enfM res m = .error e := by
  simp [enforce_reasoning_limit, refusalTruthy, h, hne]

theorem runBatch_ok_spec (labelM : String → ModelMsg) (enfM : PoliticalLabel → ModelMsg)
    (m : Nat) : ∀ (records : List ReviewRecord) (outs : List OutputRecord),
    runBatch labelM enfM m records = .ok outs →
    outs.length = records.length ∧
    outs.map (fun o => o.review_id) = records.map (fun r => r.review_id) ∧
    ∀ o ∈ outs, ∃ res : PoliticalLabel,
      o.reasoning = (hardGuard (enfM res).parsed m).reasoning ∧
      o.reasoning_words = word_count o.reasoning := by
  intro records
  induction records with
  | nil =>
    intro outs h
    simp only [runBatch] at h
    obtain rfl : ([] : List OutputRecord) = outs := by
      cases h
      rfl
    exact ⟨rfl, rfl, by intro o ho; cases ho⟩
  | cons r rs ih =>
    intro outs h
    cases hl : label_one labelM r.review_text with
    | error e =>
      simp [runBatch, hl] at h
    | ok out1 =>
      cases he : enforce_reasoning_limit enfM out1 m with
      | error e =>
        simp [runBatch, hl, he] at h
      | ok out2 =>
        cases hb : runBatch labelM enfM m rs with
        | error e =>
          simp [runBatch, hl, he, hb] at h
        | ok rest =>
          simp only [runBatch, hl, he, hb, Except.ok.injEq] at h
          obtain rfl : mkOutput r out2 :: rest = outs := h
          obtain ⟨h1, h2, h3⟩ := ih rest hb
          refine ⟨by simp [h1], by simp [mkOutput, h2], ?_⟩
          intro o ho
          rcases List.mem_cons.mp ho with rfl | ho
          · refine ⟨out1, ?_, rfl⟩
            have := enforce_ok_eq enfM out1 m out2 he
            simp [mkOutput, this]
          · exact h3 o ho

theorem label_one_ok_eq (labelM : String → ModelMsg) (rt : String)
    (pl : PoliticalLabel) (h : label_one labelM rt = .ok pl) :
    pl = (labelM (build_prompt rt)).parsed := by
  by_cases hr : refusalTruthy (labelM (build_prompt rt)).refusal = true
  · simp [label_one, hr] at h
  · simp [label_one, hr] at h
    exact h.symm

theorem enforce_error_of_truthy (enfM : PoliticalLabel → ModelMsg)
    (res : PoliticalLabel) (m : Nat)
    (h : refusalTruthy (enfM res).refusal = true) :
    enforce_reasoning_limit enfM res m = .error ((enfM res).refusal.getD "") := by
  simp [enforce_reasoning_limit, h]

theorem runBatch_error_of_refusal (labelM : String → ModelMsg)
    (enfM : PoliticalLabel → ModelMsg) (m : Nat) :
    ∀ records : List ReviewRecord,
    (∃ r ∈ records,
      refusalTruthy (labelM (build_prompt r.review_text)).refusal = true ∨
      refusalTruthy (enfM (labelM (build_prompt r.review_text)).parsed).refusal = true) →
    ∃ err, runBatch labelM enfM m records = .error err := by
  intro records
  induction records with
  | nil =>
    rintro ⟨r, hr, -⟩
    cases hr
  | cons r0 rs ih =>
    rintro ⟨r, hr, href⟩
    cases hl : label_one labelM r0.review_text with
    | error e => exact ⟨e, by simp [runBatch, hl]⟩
    | ok out1 =>
      cases he : enforce_reasoning_limit enfM out1 m with
      | error e => exact ⟨e, by simp [runBatch, hl, he]⟩
      | ok out2 =>
        rcases List.mem_cons.mp hr with rfl | hmem
        · exfalso
          rcases href with href | href
          · have hcontra : label_one labelM r.review_text =
                .error ((labelM (build_prompt r.review_text)).refusal.getD "") := by
              simp [label_one, href]
            rw [hl] at hcontra
            cases hcontra
          · have hout : out1 = (labelM (build_prompt r.review_text)).parsed :=
              label_one_ok_eq labelM r.review_text out1 hl
            have hcontra := enforce_error_of_truthy enfM out1 m (by rw [hout]; exact href)
            rw [he] at hcontra
            cases hcontra
        · obtain ⟨err, herr⟩ := ih ⟨r, hmem, href⟩
          refine ⟨err, ?_⟩
          simp [runBatch, hl, he, herr]

/-! ### Lemmas about the fixture generator -/

theorem getD_mod_mem (l : List String) (k : Nat) (h : l ≠ []) :
    l.getD (k % l.length) "" ∈ l := by
  have hlen : 0 < l.length := List.length_pos.mpr h
  have hk : k % l.length < l.length := Nat.mod_lt _ hlen
  rw [List.getD_eq_getElem l "" hk]
  exact List.getElem_mem hk

theorem genRow_fields (p : PRNG) (i g : Nat) :
    (genRow p i g).1.review_id = i ∧
    (genRow p i g).1.true_is_political = (if p.randQ g < 7/20 then 1 else 0) := by
  by_cases h1 : p.randQ g < 7/20 <;>
    by_cases h2 : p.randQ (p.next (p.next g)) < (4:ℚ)⁻¹ <;>
      simp [genRow, pyChoice, h1, h2, one_div]

theorem genRow_text (p : PRNG) (i g : Nat) :
    ∃ base ∈ (if p.randQ g < 7/20 then political else nonpolitical),
      if p.randQ (p.next (p.next g)) < 1/4 then
        ∃ f ∈ fillers, (genRow p i g).1.review_text = pyStrip (base ++ " " ++ f)
      else (genRow p i g).1.review_text = pyStrip base := by
  by_cases h1 : p.randQ g < 7/20 <;> by_cases h2 : p.randQ (p.next (p.next g)) < 1/4
  · have h2v : p.randQ (p.next (p.next g)) < (4:ℚ)⁻¹ := by rwa [one_div] at h2
    refine ⟨political.getD (p.randIdx (p.next g) % political.length) "",
      by simp only [if_pos h1]; exact getD_mod_mem political _ (by simp [political]), ?_⟩
    rw [if_pos h2]
    refine ⟨fillers.getD (p.randIdx (p.next (p.next (p.next g))) % fillers.length) "",
      getD_mod_mem fillers _ (by simp [fillers]), ?_⟩
    simp [genRow, pyChoice, h1, h2v]
  · have h2v : ¬ p.randQ (p.next (p.next g)) < (4:ℚ)⁻¹ := by rwa [one_div] at h2
    refine ⟨political.getD (p.randIdx (p.next g) % political.length) "",
      by simp only [if_pos h1]; exact getD_mod_mem political _ (by simp [political]), ?_⟩
    rw [if_neg h2]
    simp [genRow, pyChoice, h1, h2v]
  · have h2v : p.randQ (p.next (p.next g)) < (4:ℚ)⁻¹ := by rwa [one_div] at h2
    refine ⟨nonpolitical.getD (p.randIdx (p.next g) % nonpolitical.length) "",
      by simp only [if_neg h1]; exact getD_mod_mem nonpolitical _ (by simp [nonpolitical]), ?_⟩
    rw [if_pos h2]
    refine ⟨fillers.getD (p.randIdx (p.next (p.next (p.next g))) % fillers.length) "",
      getD_mod_mem fillers _ (by simp [fillers]), ?_⟩
    simp [genRow, pyChoice, h1, h2v]
  · have h2v : ¬ p.randQ (p.next (p.next g)) < (4:ℚ)⁻¹ := by rwa [one_div] at h2
    refine ⟨nonpolitical.getD (p.randIdx (p.next g) % nonpolitical.length) "",
      by simp only [if_neg h1]; exact getD_mod_mem nonpolitical _ (by simp [nonpolitical]), ?_⟩
    rw [if_neg h2]
    simp [genRow, pyChoice, h1, h2v]

theorem genRows_ids (p : PRNG) : ∀ (k g i : Nat),
    (genRows p g i k).1.map (fun r => r.review_id) = List.range' i k := by
  intro k
  induction k with
  | zero =>
    intro g i
    rfl
  | succ k ih =>
    intro g i
    cases hrow : genRow p i g with
    | mk row g1 =>
      have hid : row.review_id = i := by
        have := (genRow_fields p i g).1
        rw [hrow] at this
        exact this
      simp only [genRows, hrow, List.map_cons, List.range']
      rw [ih g1 (i + 1), hid]

/-! ### Claim theorems -/

/-- C1 (counterexample): the claimed invariant
`reasoning_words(output.reasoning) ≤ max_words` does NOT hold for every model
behaviour.  With a labeling stub answering a reasoning of 51 whitespace
tokens `a-b` and an echoing rewrite stub, the batch run at `max_words = 50`
truncates to the first 50 whitespace tokens but stores
`reasoning_words = 100 > 50`, since each kept token holds two regex words. -/
theorem word_limit_invariant_counterexample :
    (runBatch (fun _ => okMsg ⟨0, exBad⟩) (fun res => okMsg res) 50 [exRecord]).toOption.map
        (List.map (fun o => o.reasoning_words)) = some [100] ∧ ¬ (100 ≤ 50) :=
  ⟨by decide, by decide⟩

/-- C1 (amended): the invariant `reasoning_words ≤ max_words` holds for every
output record of a successful batch run whenever every whitespace token of
the rewrite model's returned reasoning contains at most one regex word (in
particular for reasonings free of intra-token punctuation); without that
assumption only the whitespace-token truncation itself is guaranteed. -/
theorem word_limit_invariant_amended (labelM : String → ModelMsg)
    (enfM : PoliticalLabel → ModelMsg) (m : Nat) (records : List ReviewRecord)
    (outs : List OutputRecord)
    (hok : runBatch labelM enfM m records = .ok outs)
    (htok : ∀ res : PoliticalLabel, ∀ t ∈ pySplit (enfM res).parsed.reasoning,
      word_count t ≤ 1) :
    ∀ o ∈ outs, o.reasoning_words ≤ m := by
  intro o ho
  obtain ⟨-, -, h3⟩ := runBatch_ok_spec labelM enfM m records outs hok
  obtain ⟨res, hreason, hwords⟩ := h3 o ho
  rw [hwords, hreason]
  apply hardGuard_word_count_le
  intro t ht
  have hmem : String.mk t ∈ pySplit (enfM res).parsed.reasoning :=
    List.mem_map_of_mem String.mk ht
  exact htok res (String.mk t) hmem

/-- C1 (witness for the amended theorem): a concrete run at `max_words = 2`
with a rewrite stub answering "one two three" stores the truncation
"one two" with `reasoning_words = 2 ≤ 2`. -/
theorem word_limit_invariant_amended_witness :
    (OutputRecord.mk 1 "Bad pacing and weak dialogue." 0 0 "one two" 2).reasoning_words ≤ 2 :=
  have htok : ∀ res : PoliticalLabel,
      ∀ t ∈ pySplit (okMsg (PoliticalLabel.mk 0 "one two three")).parsed.reasoning,
        word_count t ≤ 1 := fun _ => by decide
  word_limit_invariant_amended (fun _ => okMsg ⟨0, "x"⟩)
    (fun _ => okMsg ⟨0, "one two three"⟩) 2 [exRecord]
    [OutputRecord.mk 1 "Bad pacing and weak dialogue." 0 0 "one two" 2]
    rfl htok
    (OutputRecord.mk 1 "Bad pacing and weak dialogue." 0 0 "one two" 2)
    (List.mem_singleton_self _)

/-- C2: after a non-refused rewrite call, if the regex word count of the
parsed reasoning exceeds `max_words` then the result is returned with the
reasoning replaced by the first `max_words` whitespace tokens joined by
single spaces, otherwise the parsed result is returned unchanged; the stored
`reasoning_words` is recomputed with `word_count`, and may differ from
`max_words` after truncation. -/
theorem enforce_hard_guard_spec (enfM : PoliticalLabel → ModelMsg)
    (res : PoliticalLabel) (m : Nat)
    (h : refusalTruthy (enfM res).refusal = false) :
    (word_count (enfM res).parsed.reasoning > m →
       enforce_reasoning_limit enfM res m =
         .ok { is_political := (enfM res).parsed.is_political,
               reasoning := truncateWords (enfM res).parsed.reasoning m }) ∧
    (word_count (enfM res).parsed.reasoning ≤ m →
       enforce_reasoning_limit enfM res m = .ok (enfM res).parsed) ∧
    (∀ (r : ReviewRecord) (pl : PoliticalLabel),
       (mkOutput r pl).reasoning_words = word_count pl.reasoning) ∧
    word_count exBad > 50 ∧ word_count (truncateWords exBad 50) ≠ 50 := by
  refine ⟨?_, ?_, fun r pl => rfl, by decide, by decide⟩
  · intro hw
    simp [enforce_reasoning_limit, h, hardGuard, hw]
  · intro hw
    simp [enforce_reasoning_limit, h, hardGuard, Nat.not_lt.mpr hw]

/-- C2 (witness): the spec's truncation scenario — a result whose reasoning
is 80 whitespace-separated single-character words, with an echoing rewrite
stub and a 50-word cap, is truncated to the first 50 whitespace tokens. -/
theorem enforce_hard_guard_spec_witness :
    enforce_reasoning_limit (fun res => okMsg res) ⟨1, ex80⟩ 50 =
      .ok { is_political := 1, reasoning := truncateWords ex80 50 } :=
  (enforce_hard_guard_spec (fun res => okMsg res) ⟨1, ex80⟩ 50 rfl).1 (by decide)

/-- C3: `word_count s` equals the number of non-overlapping matches of
`\b\w+\b` in `s` (modelled operationally by `reFindallWords`, the list of
maximal runs of word characters), and this count differs from the length of
the whitespace split on some strings, e.g. one with an apostrophe. -/
theorem word_count_regex_spec (s : String) :
    word_count s = (reFindallWords s.data).length ∧
    word_count "it's fine" ≠ (pySplit "it's fine").length :=
  ⟨word_count_eq_reFindall s.data, by decide⟩

/-- C4 (counterexample): `enforce_reasoning_limit` does NOT preserve the
input result's `is_political` for every model response: a rewrite stub that
answers `is_political = 0` on an input result with `is_political = 1` makes
the function return `0`. -/
theorem frame_condition_counterexample :
    enforce_reasoning_limit (fun _ => okMsg ⟨0, "short"⟩) ⟨1, "why"⟩ 50 =
      .ok ⟨0, "short"⟩ ∧ (0 : Int) ≠ 1 :=
  ⟨rfl, by decide⟩

/-- C4 (amended): the `is_political` of the returned result equals the
`is_political` of the *model's rewrite response* — the local hard guard
changes only the reasoning field; the input result's value is preserved only
if the model's response preserves it. -/
theorem frame_condition_amended (enfM : PoliticalLabel → ModelMsg)
    (res : PoliticalLabel) (m : Nat) (pl : PoliticalLabel)
    (h : enforce_reasoning_limit enfM res m = .ok pl) :
    pl.is_political = (enfM res).parsed.is_political := by
  rw [enforce_ok_eq enfM res m pl h, hardGuard_is_political]

/-- C4 (witness for the amended theorem): at a concrete rewrite stub the
returned `is_political` is the stub response's value. -/
theorem frame_condition_amended_witness :
    (PoliticalLabel.mk 0 "short").is_political =
      (okMsg (PoliticalLabel.mk 0 "short")).parsed.is_political :=
  frame_condition_amended (fun _ => okMsg ⟨0, "short"⟩) ⟨1, "why"⟩ 50 ⟨0, "short"⟩ rfl

/-- C5 (counterexample): on an empty batch the program does not report an
undefined/NaN accuracy — it crashes: `pd.DataFrame([])` at line 157 has no
columns, so the attribute access `out_df.true_is_political` at line 162
raises `AttributeError` before any mean is computed. -/
theorem accuracy_crash_counterexample :
    accuracy [] =
      .error "AttributeError: DataFrame object has no attribute true_is_political" :=
  rfl

/-- C5 (amended): for every non-empty batch the reported accuracy is the
number of records with `true_is_political == pred_is_political` divided by
the number of records; for an empty batch the accuracy computation raises
(`AttributeError` on the missing column of the empty output DataFrame)
rather than reporting an undefined/NaN value. -/
theorem accuracy_spec (rows : List OutputRecord) :
    (rows ≠ [] → accuracy rows =
      .ok (((rows.filter (fun o => o.true_is_political == o.pred_is_political)).length : ℚ) /
        (rows.length : ℚ))) ∧
    accuracy [] =
      .error "AttributeError: DataFrame object has no attribute true_is_political" := by
  constructor
  · intro hne
    have hlen : rows.length ≠ 0 := by simpa using hne
    simp [accuracy, hlen, List.countP_eq_length_filter]
  · rfl

/-- C5 (witness): three records with `true = [1,0,1]` and `pred = [1,0,0]`
give accuracy 2/3. -/
theorem accuracy_spec_witness : accuracy exBatch = .ok ((2 : ℚ) / 3) := by
  have h := (accuracy_spec exBatch).1 (by decide)
  rw [h]
  norm_num [exBatch]

/-- C6: if the model signals refusal (a non-empty refusal text, the Python
truthiness test) on the labeling call or on the length-enforcement call, that
operation raises an error carrying the refusal text; and if, for any record,
either the labeling call or the subsequent length-enforcement call refuses,
the whole batch run fails and no output table is produced. -/
theorem refusal_propagation (labelM : String → ModelMsg)
    (enfM : PoliticalLabel → ModelMsg) (m : Nat) (records : List ReviewRecord)
    (rt e : String) (res : PoliticalLabel) :
    ((labelM (build_prompt rt)).refusal = some e → e ≠ "" →
       label_one labelM rt = .error e) ∧
    ((enfM res).refusal = some e → e ≠ "" →
       enforce_reasoning_limit enfM res m = .error e) ∧
    ((∃ r ∈ records,
        refusalTruthy (labelM (build_prompt r.review_text)).refusal = true ∨
        refusalTruthy (enfM (labelM (build_prompt r.review_text)).parsed).refusal = true) →
       isOkB (runBatch labelM enfM m records) = false) := by
  refine ⟨fun h hne => label_one_refuses labelM rt e h hne,
    fun h hne => enforce_refuses enfM res m e h hne, ?_⟩
  intro hex
  obtain ⟨err, herr⟩ := runBatch_error_of_refusal labelM enfM m records hex
  rw [herr]
  rfl

/-- C6 (witness): a stub refusing with text "no" makes `label_one` fail with
that text and makes `enforce_reasoning_limit` fail with that text; the
one-record batch run produces no output table when the labeling stub
refuses, and also when only the rewrite stub refuses. -/
theorem refusal_propagation_witness :
    label_one (fun _ => ModelMsg.mk (some "no") (PoliticalLabel.mk 0 "")) "r" = .error "no" ∧
    enforce_reasoning_limit (fun _ => ModelMsg.mk (some "no") (PoliticalLabel.mk 0 ""))
      (PoliticalLabel.mk 0 "w") 50 = .error "no" ∧
    isOkB (runBatch (fun _ => ModelMsg.mk (some "no") (PoliticalLabel.mk 0 ""))
      (fun res => okMsg res) 50 [exRecord]) = false ∧
    isOkB (runBatch (fun _ => okMsg (PoliticalLabel.mk 1 "fine"))
      (fun _ => ModelMsg.mk (some "no") (PoliticalLabel.mk 0 "")) 50 [exRecord]) = false :=
  have h := refusal_propagation (fun _ => ModelMsg.mk (some "no") (PoliticalLabel.mk 0 ""))
    (fun res => okMsg res) 50 [exRecord] "r" "no" (PoliticalLabel.mk 0 "w")
  have h2 := (refusal_propagation (fun _ => ModelMsg.mk (some "no") (PoliticalLabel.mk 0 ""))
    (fun _ => ModelMsg.mk (some "no") (PoliticalLabel.mk 0 "")) 50 [exRecord] "r" "no"
    (PoliticalLabel.mk 0 "w")).2.1 rfl (by decide)
  have h3 := (refusal_propagation (fun _ => okMsg (PoliticalLabel.mk 1 "fine"))
    (fun _ => ModelMsg.mk (some "no") (PoliticalLabel.mk 0 "")) 50 [exRecord] "r" "no"
    (PoliticalLabel.mk 0 "w")).2.2
    ⟨exRecord, List.mem_singleton_self _, Or.inr (by decide)⟩
  ⟨h.1 rfl (by decide), h2,
   h.2.2 ⟨exRecord, List.mem_singleton_self _, Or.inl (by decide)⟩, h3⟩

/-- C7: on a batch run that completes without error, there is exactly one
output record per input record, in the input's row order, with the same
`review_id` sequence (hence equal multisets, no drops, no duplicates). -/
theorem batch_cardinality_order (labelM : String → ModelMsg)
    (enfM : PoliticalLabel → ModelMsg) (m : Nat) (records : List ReviewRecord)
    (outs : List OutputRecord) (h : runBatch labelM enfM m records = .ok outs) :
    outs.length = records.length ∧
    outs.map (fun o => o.review_id) = records.map (fun r => r.review_id) := by
  obtain ⟨h1, h2, -⟩ := runBatch_ok_spec labelM enfM m records outs h
  exact ⟨h1, h2⟩

/-- C7 (witness): a concrete two-record run yields two output records with
the input's `review_id` sequence. -/
theorem batch_cardinality_order_witness :
    ([OutputRecord.mk 1 "Bad pacing and weak dialogue." 0 1 "ok" 1,
      OutputRecord.mk 2 "Great visuals, mediocre script." 0 1 "ok" 1].length =
        [exRecord, exRecord2].length) ∧
    ([OutputRecord.mk 1 "Bad pacing and weak dialogue." 0 1 "ok" 1,
      OutputRecord.mk 2 "Great visuals, mediocre script." 0 1 "ok" 1].map
        (fun o => o.review_id) = [exRecord, exRecord2].map (fun r => r.review_id)) :=
  batch_cardinality_order (fun _ => okMsg ⟨1, "ok"⟩) (fun res => okMsg res) 50
    [exRecord, exRecord2]
    [OutputRecord.mk 1 "Bad pacing and weak dialogue." 0 1 "ok" 1,
     OutputRecord.mk 2 "Great visuals, mediocre script." 0 1 "ok" 1] rfl

/-- C8: the fixture generator is deterministic in `(n, seed)`: it re-seeds
the pseudo-random source from `seed` alone, discarding the prior global
state, so any two invocations with the same `(n, seed)` — in particular two
consecutive ones — produce identical row tables. -/
theorem fixture_deterministic (p : PRNG) (n seed g1 g2 : Nat) :
    (maybe_make_fake_dataset p n seed g1).1 = (maybe_make_fake_dataset p n seed g2).1 ∧
    (maybe_make_fake_dataset p n seed ((maybe_make_fake_dataset p n seed g1).2)).1 =
      (maybe_make_fake_dataset p n seed g1).1 :=
  ⟨rfl, rfl⟩

/-- C9: each generated row has `review_id = i`; its `true_is_political` is 1
exactly when the iteration's first uniform draw is below 0.35; its text is a
member of the political pool (6 strings) under that draw and of the
non-political pool (6 strings) otherwise, with one of the three fillers
appended exactly when the second draw is below 0.25; and the full dataset
carries `review_id = 1..n`. -/
theorem fixture_algorithm_spec (p : PRNG) (i g n seed g0 : Nat) :
    (genRow p i g).1.review_id = i ∧
    ((genRow p i g).1.true_is_political = 1 ↔ p.randQ g < 7/20) ∧
    political.length = 6 ∧ nonpolitical.length = 6 ∧ fillers.length = 3 ∧
    (∃ base ∈ (if p.randQ g < 7/20 then political else nonpolitical),
      if p.randQ (p.next (p.next g)) < 1/4 then
        ∃ f ∈ fillers, (genRow p i g).1.review_text = pyStrip (base ++ " " ++ f)
      else (genRow p i g).1.review_text = pyStrip base) ∧
    (maybe_make_fake_dataset p n seed g0).1.map (fun r => r.review_id) =
      List.range' 1 n := by
  obtain ⟨hid, hpol⟩ := genRow_fields p i g
  refine ⟨hid, ?_, rfl, rfl, rfl, genRow_text p i g, genRows_ids p n (p.seedFn seed) 1⟩
  rw [hpol]
  by_cases h1 : p.randQ g < 7/20 <;> simp [h1]

/-- C10: the truncation of the hard guard is idempotent — the
single-space join of the first `n` whitespace tokens is a fixed point of
itself — and hence the hard guard leaves a reasoning it has already produced
unchanged. -/
theorem truncation_idempotent (s : String) (n : Nat) (out : PoliticalLabel) (m : Nat) :
    truncateWords (truncateWords s n) n = truncateWords s n ∧
    hardGuard (hardGuard out m) m = hardGuard out m := by
  refine ⟨truncateWords_idem s n, ?_⟩
  by_cases h : word_count out.reasoning > m
  · have h1 : hardGuard out m = { out with reasoning := truncateWords out.reasoning m } := by
      simp [hardGuard, h]
    rw [h1]
    by_cases h2 : word_count (truncateWords out.reasoning m) > m
    · simp [hardGuard, h2, truncateWords_idem]
    · simp [hardGuard, h2]
  · have h1 : hardGuard out m = out := by simp [hardGuard, h]
    rw [h1, h1]

end LlmDemo
